import Mathlib

/-!
Shallow embedding of the download orchestration engine of
`gorails_downloader.py` (the GoRails video downloader), with proofs of the
specification's claims about it.

The embedding covers:
* `_download_file` — the size-reconciliation and streaming-download logic,
  modelled as the pure function `downloadFile` over an abstract local file
  state (its size, or `none` when absent) and an abstract, deterministic
  HTTP server (HEAD content-length result, GET content-length, GET body
  length, GET success flag);
* the per-episode pipeline and the aggregation loop of `download_playlist`,
  with the `as_completed` completion order made explicit as a permutation
  of the 1-indexed task positions;
* the episode-link extraction of `download_playlist` (`expandEpisodes`);
* the filename derivation of `_download_file` (`safeTitle`, `makeFilename`).
-/

set_option autoImplicit false

namespace Gorails

/-- Spec-level transfer status. The Python result dict carries a `skipped`
flag; a successful non-skipped transfer is `resumed` when the resume branch
was taken (Range request) and `completed` otherwise. The `Failed` case of
the spec corresponds to `_download_file` returning `None` and is modelled
as `Option.none` at the `Outcome` level. -/
inductive Status where
  | completed
  | skipped
  | resumed
  deriving DecidableEq

/-- The fields of the result dict of `_download_file` that the claims talk
about: the status classification and the reported `size` value. -/
structure Outcome where
  status : Status
  size : Nat
  deriving DecidableEq

/-- Full observable effect of one `_download_file` call: the outcome
(`none` = the function's exception handler returned `None`, i.e.
`TransferFailed`), the final on-disk file size (`none` = no file), whether
a content GET was issued, and the start byte of the `Range` header when one
was sent. -/
structure TransferResult where
  outcome : Option Outcome
  finalFile : Option Nat
  getIssued : Bool
  rangeStart : Option Nat
  deriving DecidableEq

/-- The three `skipped: True` returns of `_download_file` (lines 362, 381,
395 of gorails_downloader.py): outcome `Skipped` with the local size `s`,
no content GET, file left as it was (`localFile`). -/
def skipResult (localFile : Option Nat) (s : Nat) : TransferResult :=
  { outcome := some { status := Status.skipped, size := s }
    finalFile := localFile
    getIssued := false
    rangeStart := none }

/-- The streaming download of `_download_file` (lines 431-502). `resume`
is the `resume_download` flag, `startByte` the `start_byte` value. On
success the reported size is `content-length + start_byte` (line 440-443)
and the file holds `startByte` old bytes plus the streamed body (append
mode) — for a fresh download `startByte = 0` and the file is truncated.
On failure (`raise_for_status`, before the file is opened) the file is
unchanged and `None` is returned. -/
def getResult (localFile : Option Nat) (getCL getBody : Nat) (getOk : Bool)
    (resume : Bool) (startByte : Nat) : TransferResult :=
  if getOk then
    { outcome := some
        { status := if resume then Status.resumed else Status.completed
          size := getCL + (if resume then startByte else 0) }
      finalFile := some (startByte + getBody)
      getIssued := true
      rangeStart := if resume then some startByte else none }
  else
    { outcome := none
      finalFile := localFile
      getIssued := true
      rangeStart := if resume then some startByte else none }

/-- Shallow embedding of `_download_file` (gorails_downloader.py:330-508).

Parameters model the environment of one invocation:
* `force` — the `force` argument;
* `localFile` — `some s` when the destination file exists with size `s`
  (`os.path.exists` / `os.path.getsize`), `none` when it does not;
* `headSize` — result of `session.head(url)`: `none` when the probe raises
  (network error or non-2xx status), `some n` when it returns
  content-length `n` (`0` when the header is missing);
* `getCL` — the content-length header of the streaming GET response
  (`0` when missing);
* `getBody` — the number of body bytes actually streamed by the GET;
* `getOk` — whether the streaming GET succeeds.

The server is deterministic: both `session.head` calls (line 351 and
line 409) observe the same `headSize`, so the skip decision of the first
block and the resume decision of the second block agree. -/
def downloadFile (force : Bool) (localFile headSize : Option Nat)
    (getCL getBody : Nat) (getOk : Bool) : TransferResult :=
  match localFile with
  | some localSize =>
    if force then
      getResult localFile getCL getBody getOk false 0
    else
      match headSize with
      | none => skipResult localFile localSize
      | some remoteSize =>
        if 0 < remoteSize ∧ remoteSize ≤ localSize then
          skipResult localFile localSize
        else if 0 < remoteSize ∧ localSize < remoteSize then
          getResult localFile getCL getBody getOk true localSize
        else
          skipResult localFile localSize
  | none => getResult none getCL getBody getOk false 0

/-- Every `downloadFile` call lands in one of three shapes: a skip of an
existing file, a fresh full download, or a resume from the existing size. -/
theorem downloadFile_shape (force : Bool) (localFile headSize : Option Nat)
    (getCL getBody : Nat) (getOk : Bool) :
    (∃ s, localFile = some s ∧
      downloadFile force localFile headSize getCL getBody getOk = skipResult localFile s) ∨
    downloadFile force localFile headSize getCL getBody getOk =
      getResult localFile getCL getBody getOk false 0 ∨
    (∃ s, localFile = some s ∧
      downloadFile force localFile headSize getCL getBody getOk =
        getResult localFile getCL getBody getOk true s) := by
  rcases localFile with _ | s
  · exact Or.inr (Or.inl rfl)
  · rcases headSize with _ | r
    · rcases force with _ | _
      · exact Or.inl ⟨s, rfl, rfl⟩
      · exact Or.inr (Or.inl rfl)
    · rcases force with _ | _
      · by_cases h1 : 0 < r ∧ r ≤ s
        · exact Or.inl ⟨s, rfl, by simp [downloadFile, h1]⟩
        · by_cases h2 : 0 < r ∧ s < r
          · exact Or.inr (Or.inr ⟨s, rfl, by simp [downloadFile, h1, h2]⟩)
          · exact Or.inl ⟨s, rfl, by simp [downloadFile, h1, h2]⟩
      · exact Or.inr (Or.inl rfl)

/-- Helper: the complete-file skip branch (lines 356-368). -/
theorem downloadFile_skip_complete (s r getCL getBody : Nat) (getOk : Bool)
    (hr : 0 < r) (hle : r ≤ s) :
    downloadFile false (some s) (some r) getCL getBody getOk =
      skipResult (some s) s := by
  simp [downloadFile, hr, hle]

/-- Helper: the unknown-remote-size skip branches (lines 375-401). -/
theorem downloadFile_skip_unknown (s getCL getBody : Nat) (getOk : Bool)
    (headSize : Option Nat) (h : headSize = none ∨ headSize = some 0) :
    downloadFile false (some s) headSize getCL getBody getOk =
      skipResult (some s) s := by
  rcases h with h | h <;> subst h <;> simp [downloadFile]

/-- Helper: the resume branch (local file exists, `localSize < remoteSize`). -/
theorem downloadFile_resume (s r getCL getBody : Nat) (getOk : Bool) (hlt : s < r) :
    downloadFile false (some s) (some r) getCL getBody getOk =
      getResult (some s) getCL getBody getOk true s := by
  have hnle : ¬ r ≤ s := Nat.not_le.mpr hlt
  have hr : 0 < r := Nat.lt_of_le_of_lt (Nat.zero_le s) hlt
  simp [downloadFile, hlt, hnle, hr]

/-- Helper: forcing always gives the fresh-download shape. -/
theorem downloadFile_force (localFile headSize : Option Nat)
    (getCL getBody : Nat) (getOk : Bool) :
    downloadFile true localFile headSize getCL getBody getOk =
      getResult localFile getCL getBody getOk false 0 := by
  rcases localFile with _ | s <;> simp [downloadFile]

/-- C2: with `forceOverwrite=false`, an existing destination file, and a
probe reporting a remote size `r` with `0 < r ≤ localSize`, `transfer()`
returns `Skipped` with `byteSize = localSize`, issues no content GET, and
leaves the local file unchanged. -/
theorem transfer_skips_when_local_complete (s r getCL getBody : Nat) (getOk : Bool)
    (hr : 0 < r) (hle : r ≤ s) :
    downloadFile false (some s) (some r) getCL getBody getOk =
      { outcome := some { status := Status.skipped, size := s }
        finalFile := some s
        getIssued := false
        rangeStart := none } :=
  downloadFile_skip_complete s r getCL getBody getOk hr hle

/-- Witness for C2 at `localSize = 5`, `remoteSize = 3`. -/
theorem transfer_skips_when_local_complete_witness :
    (0 < 3 ∧ 3 ≤ 5) ∧
      downloadFile false (some 5) (some 3) 9 9 true =
        { outcome := some { status := Status.skipped, size := 5 }
          finalFile := some 5
          getIssued := false
          rangeStart := none } :=
  ⟨⟨by decide, by decide⟩,
    transfer_skips_when_local_complete 5 3 9 9 true (by decide) (by decide)⟩

/-- C3: with `forceOverwrite=false` and an existing destination file, when
the metadata probe fails (`headSize = none`) or reports content-length `0`,
`transfer()` returns `Skipped` with `byteSize` the existing local size,
issues no content GET, never overwrites the file, and the outcome is a
normal `Skipped` result, not a failure (`outcome ≠ none`). -/
theorem transfer_skips_when_remote_unknown (s getCL getBody : Nat) (getOk : Bool)
    (headSize : Option Nat) (h : headSize = none ∨ headSize = some 0) :
    downloadFile false (some s) headSize getCL getBody getOk =
      { outcome := some { status := Status.skipped, size := s }
        finalFile := some s
        getIssued := false
        rangeStart := none } :=
  downloadFile_skip_unknown s getCL getBody getOk headSize h

/-- Witness for C3 with a failing probe at `localSize = 7`. -/
theorem transfer_skips_when_remote_unknown_witness :
    ((none : Option Nat) = none ∨ (none : Option Nat) = some 0) ∧
      downloadFile false (some 7) none 4 4 true =
        { outcome := some { status := Status.skipped, size := 7 }
          finalFile := some 7
          getIssued := false
          rangeStart := none } :=
  ⟨Or.inl rfl,
    transfer_skips_when_remote_unknown 7 4 4 true none (Or.inl rfl)⟩

/-- C1: the `byteSize` invariant. For every invocation: when the outcome is
`Completed` or `Resumed` and the GET body length matches the GET
content-length header (a well-formed server), the reported size equals the
final on-disk file size; when the outcome is `Skipped`, the reported size
is exactly the size the local file had at decision time, and the file is
unchanged. -/
theorem outcome_size_invariant (force : Bool) (localFile headSize : Option Nat)
    (getCL getBody : Nat) (getOk : Bool) :
    (∀ o, (downloadFile force localFile headSize getCL getBody getOk).outcome = some o →
      (o.status = Status.completed ∨ o.status = Status.resumed) →
      getBody = getCL →
      (downloadFile force localFile headSize getCL getBody getOk).finalFile = some o.size) ∧
    (∀ o, (downloadFile force localFile headSize getCL getBody getOk).outcome = some o →
      o.status = Status.skipped →
      localFile = some o.size ∧
      (downloadFile force localFile headSize getCL getBody getOk).finalFile = localFile) := by
  rcases downloadFile_shape force localFile headSize getCL getBody getOk with
    ⟨s, hl, heq⟩ | heq | ⟨s, hl, heq⟩
  · rw [heq]
    constructor
    · intro o ho hst _
      simp only [skipResult, Option.some.injEq] at ho
      subst ho
      rcases hst with h | h <;> simp at h
    · intro o ho _
      simp only [skipResult, Option.some.injEq] at ho
      subst ho
      exact ⟨hl, rfl⟩
  · rw [heq]
    rcases getOk with _ | _
    · constructor <;> intro o ho <;> simp [getResult] at ho
    · constructor
      · intro o ho _ hbody
        simp only [getResult, if_true, Option.some.injEq] at ho ⊢
        subst ho
        simp [hbody]
      · intro o ho hst
        simp only [getResult, if_true, Option.some.injEq] at ho
        subst ho
        simp at hst
  · rw [heq]
    rcases getOk with _ | _
    · constructor <;> intro o ho <;> simp [getResult] at ho
    · constructor
      · intro o ho _ hbody
        simp only [getResult, if_true, Option.some.injEq] at ho ⊢
        subst ho
        simp [hbody, Nat.add_comm]
      · intro o ho hst
        simp only [getResult, if_true, Option.some.injEq] at ho
        subst ho
        simp at hst

/-- Witness for C1: a resumed transfer (`localSize = 3`, `remoteSize = 10`,
remaining content-length `7`, body `7`) has final file size equal to the
reported size `10`. -/
theorem outcome_size_invariant_witness :
    (downloadFile false (some 3) (some 10) 7 7 true).finalFile =
      some (({ status := Status.resumed, size := 10 } : Outcome).size) :=
  (outcome_size_invariant false (some 3) (some 10) 7 7 true).1
    { status := Status.resumed, size := 10 } rfl (Or.inr rfl) rfl

/-- C4: with `forceOverwrite=false`, an existing destination of size
`s` strictly below the probed remote size `r`, and a successful GET: the
transfer issues a Range request starting exactly at `s`, appends the
streamed bytes to the existing file, reports status `Resumed` with total
byte target `getCL + s` (remaining content-length plus bytes already on
disk); and when the server serves exactly the requested range
(`getCL = r - s`, `getBody = getCL`), the final file size equals the
remote size `r` and the reported size is `r` as well. -/
theorem transfer_resumes_when_local_incomplete (s r getCL getBody : Nat)
    (hlt : s < r) :
    downloadFile false (some s) (some r) getCL getBody true =
      { outcome := some { status := Status.resumed, size := getCL + s }
        finalFile := some (s + getBody)
        getIssued := true
        rangeStart := some s } ∧
    (getCL = r - s → getBody = getCL →
      (downloadFile false (some s) (some r) getCL getBody true).finalFile = some r ∧
      (downloadFile false (some s) (some r) getCL getBody true).outcome =
        some { status := Status.resumed, size := r }) := by
  have hmain : downloadFile false (some s) (some r) getCL getBody true =
      { outcome := some { status := Status.resumed, size := getCL + s }
        finalFile := some (s + getBody)
        getIssued := true
        rangeStart := some s } := by
    rw [downloadFile_resume s r getCL getBody true hlt]
    simp [getResult]
  refine ⟨hmain, ?_⟩
  intro hcl hbody
  rw [hmain]
  subst hbody hcl
  have h1 : s + (r - s) = r := Nat.add_sub_cancel' (Nat.le_of_lt hlt)
  have h2 : r - s + s = r := Nat.sub_add_cancel (Nat.le_of_lt hlt)
  simp [h1, h2]

/-- Witness for C4 at `localSize = 3`, `remoteSize = 10`. -/
theorem transfer_resumes_when_local_incomplete_witness :
    downloadFile false (some 3) (some 10) 7 7 true =
      { outcome := some { status := Status.resumed, size := 7 + 3 }
        finalFile := some (3 + 7)
        getIssued := true
        rangeStart := some 3 } :=
  (transfer_resumes_when_local_incomplete 3 10 7 7 (by decide)).1

/-- C5: with `forceOverwrite=true` the reconciliation check is bypassed:
no Range header is ever sent, a content GET is always issued, the outcome
is never `Skipped`, and on a successful GET the result is a full download
from offset 0 with the destination truncated to exactly the streamed body
— an equation whose right-hand side is independent of both the local file
state and the probe result, with status `Completed`. -/
theorem transfer_force_overwrites (localFile headSize : Option Nat)
    (getCL getBody : Nat) (getOk : Bool) :
    (downloadFile true localFile headSize getCL getBody getOk).rangeStart = none ∧
    (downloadFile true localFile headSize getCL getBody getOk).getIssued = true ∧
    (∀ o, (downloadFile true localFile headSize getCL getBody getOk).outcome = some o →
      o.status ≠ Status.skipped) ∧
    (getOk = true →
      downloadFile true localFile headSize getCL getBody getOk =
        { outcome := some { status := Status.completed, size := getCL }
          finalFile := some getBody
          getIssued := true
          rangeStart := none }) := by
  rw [downloadFile_force localFile headSize getCL getBody getOk]
  rcases getOk with _ | _
  · refine ⟨by simp [getResult], by simp [getResult], ?_, ?_⟩
    · intro o ho
      simp [getResult] at ho
    · intro h
      cases h
  · refine ⟨by simp [getResult], by simp [getResult], ?_, ?_⟩
    · intro o ho
      simp only [getResult, if_true, Option.some.injEq] at ho
      subst ho
      simp
    · intro _
      simp [getResult]

/-- Witness for C5: forcing with a complete local file (`localSize = 9`,
`remoteSize = 9`) still re-downloads from scratch, status `Completed`. -/
theorem transfer_force_overwrites_witness :
    downloadFile true (some 9) (some 9) 9 9 true =
      { outcome := some { status := Status.completed, size := 9 }
        finalFile := some 9
        getIssued := true
        rangeStart := none } :=
  (transfer_force_overwrites (some 9) (some 9) 9 9 true).2.2.2 rfl

/-! ### The playlist loop of `download_playlist` (lines 573-624)

Each episode at 1-indexed position `i` runs the pipeline
`get_video_info → get_direct_video_url → _download_file` in a worker; a
pipeline step returning `None` (or `_download_file` raising) makes the
whole episode yield `None`, and `download_playlist` appends a result to
`downloaded_videos` only when it is truthy (line 611-614).
`as_completed` hands results back in an arbitrary order, modelled here as
an explicit list `perm` of positions — a permutation of `[1..N]`. -/

/-- Abstract environment of one episode worker: whether the
locator/resolver steps succeed, plus the `downloadFile` environment. -/
structure EpisodeEnv where
  pipelineOk : Bool
  localFile : Option Nat
  headSize : Option Nat
  getCL : Nat
  getBody : Nat
  getOk : Bool
  deriving DecidableEq

/-- One worker (`_download_video_parallel` → `download_video`): `none`
when the locator or resolver fails or the transfer itself fails
(`_download_file` returned `None`), otherwise the transfer outcome. -/
def runEpisode (force : Bool) (e : EpisodeEnv) : Option Outcome :=
  if e.pipelineOk then
    (downloadFile force e.localFile e.headSize e.getCL e.getBody e.getOk).outcome
  else none

/-- Outcome of the episode at 1-indexed position `i` of the playlist. -/
def episodeOutcome (force : Bool) (envs : List EpisodeEnv) (i : Nat) : Option Outcome :=
  match envs.get? (i - 1) with
  | some e => runEpisode force e
  | none => none

/-- The `downloaded_videos` list: results collected in completion order
`perm`, keeping, as the code's `if result:` does, only the episodes whose
worker produced a result. Each entry is tagged with the position that the
code embeds into the filename. -/
def playlistVideos (force : Bool) (envs : List EpisodeEnv) (perm : List Nat) :
    List (Nat × Outcome) :=
  perm.filterMap (fun i => (episodeOutcome force envs i).map (fun o => (i, o)))

/-- The dict returned by `download_playlist` (lines 618-624). `downloaded`
is computed, as in the code, as `len(downloaded_videos) - skipped_count`
over Python integers, so it is an `Int` here. -/
structure PlaylistResult where
  total_episodes : Nat
  downloaded : Int
  skipped : Nat
  videos : List (Nat × Outcome)
  deriving DecidableEq

/-- Shallow embedding of the aggregation of `download_playlist`:
`envs` are the per-episode environments (one per expanded episode URL, in
document order), `perm` the completion order of `as_completed`. -/
def downloadPlaylist (force : Bool) (envs : List EpisodeEnv) (perm : List Nat) :
    PlaylistResult :=
  { total_episodes := envs.length
    downloaded := ((playlistVideos force envs perm).length : Int) -
      (((playlistVideos force envs perm).filter
          (fun v => decide (v.2.status = Status.skipped))).length : Int)
    skipped := ((playlistVideos force envs perm).filter
        (fun v => decide (v.2.status = Status.skipped))).length
    videos := playlistVideos force envs perm }

/-- The positions carried by the collected videos are exactly the
completion order filtered to the successful episodes. -/
theorem playlistVideos_map_fst (force : Bool) (envs : List EpisodeEnv)
    (perm : List Nat) :
    (playlistVideos force envs perm).map Prod.fst =
      perm.filter (fun i => (episodeOutcome force envs i).isSome) := by
  induction perm with
  | nil => rfl
  | cons i l ih =>
    cases h : episodeOutcome force envs i <;>
      simp [playlistVideos, List.filterMap_cons, List.filter_cons, h] <;>
      simpa [playlistVideos] using ih

/-- When every episode in the completion order yields a `Skipped` outcome,
all of them are collected and all of them are counted as skipped. -/
theorem playlistVideos_all_skipped (force : Bool) (envs : List EpisodeEnv) :
    ∀ perm : List Nat,
      (∀ i ∈ perm, ∃ s, episodeOutcome force envs i =
        some { status := Status.skipped, size := s }) →
      (playlistVideos force envs perm).length = perm.length ∧
      ((playlistVideos force envs perm).filter
          (fun v => decide (v.2.status = Status.skipped))).length = perm.length := by
  intro perm
  induction perm with
  | nil => exact fun _ => ⟨rfl, rfl⟩
  | cons i l ih =>
    intro h
    obtain ⟨s, hs⟩ := h i (List.mem_cons_self i l)
    obtain ⟨h1, h2⟩ := ih (fun j hj => h j (List.mem_cons_of_mem i hj))
    refine ⟨?_, ?_⟩
    · simp only [playlistVideos, List.filterMap_cons, hs, Option.map_some,
        List.length_cons, List.length_cons]
      simpa [playlistVideos] using h1
    · simp only [playlistVideos, List.filterMap_cons, hs, Option.map_some,
        List.filter_cons, decide_eq_true_eq, if_pos, List.length_cons]
      simpa [playlistVideos] using h2

/-- C6 (amended): for any completion order `perm` (any permutation of the
positions `1..N`), the ordinal positions carried by
`PlaylistResult.videos` are exactly the positions of the episodes whose
worker produced an outcome — each occurring exactly once, a sub-collection
of `{1..N}` independent of the completion order; and when every episode
succeeds they are exactly `{1..N}`. -/
theorem playlist_positions (force : Bool) (envs : List EpisodeEnv) (perm : List Nat)
    (hperm : perm.Perm (List.range' 1 envs.length)) :
    ((downloadPlaylist force envs perm).videos.map Prod.fst).Perm
      ((List.range' 1 envs.length).filter
        (fun i => (episodeOutcome force envs i).isSome)) ∧
    ((downloadPlaylist force envs perm).videos.map Prod.fst).Nodup ∧
    ((∀ i ∈ List.range' 1 envs.length, (episodeOutcome force envs i).isSome = true) →
      ((downloadPlaylist force envs perm).videos.map Prod.fst).Perm
        (List.range' 1 envs.length)) := by
  have hproj : (downloadPlaylist force envs perm).videos = playlistVideos force envs perm := rfl
  have hfst := playlistVideos_map_fst force envs perm
  have hfilter : ((downloadPlaylist force envs perm).videos.map Prod.fst).Perm
      ((List.range' 1 envs.length).filter
        (fun i => (episodeOutcome force envs i).isSome)) := by
    rw [hproj, hfst]
    exact hperm.filter _
  refine ⟨hfilter, ?_, ?_⟩
  · rw [hproj, hfst]
    exact (hperm.symm.nodup (List.nodup_range' _ _)).filter _
  · intro hall
    have : (List.range' 1 envs.length).filter
        (fun i => (episodeOutcome force envs i).isSome) = List.range' 1 envs.length :=
      List.filter_eq_self.mpr hall
    rw [this] at hfilter
    exact hfilter

/-- Counterexample to C6 as stated: a playlist of `N = 1` episode whose
locator fails yields an empty `videos` list, so the collected positions
are not `{1}` — failed episodes are dropped by the `if result:` guard
(line 611-614), they do not appear with their position. -/
theorem playlist_positions_counterexample :
    ¬ (((downloadPlaylist false
        [{ pipelineOk := false, localFile := none, headSize := none,
           getCL := 0, getBody := 0, getOk := true }] [1]).videos.map Prod.fst).Perm
      (List.range' 1 1)) := by
  decide

/-- Witness for amended C6: two episodes, completion order `[2, 1]`, the
first episode's pipeline failing: the positions are a permutation of the
successful positions `[2]`. -/
theorem playlist_positions_witness :
    ([2, 1] : List Nat).Perm (List.range' 1 2) ∧
      (((downloadPlaylist false
          [{ pipelineOk := false, localFile := none, headSize := none,
             getCL := 0, getBody := 0, getOk := true },
           { pipelineOk := true, localFile := none, headSize := none,
             getCL := 6, getBody := 6, getOk := true }] [2, 1]).videos.map Prod.fst).Perm
        ((List.range' 1 2).filter
          (fun i => (episodeOutcome false
            [{ pipelineOk := false, localFile := none, headSize := none,
               getCL := 0, getBody := 0, getOk := true },
             { pipelineOk := true, localFile := none, headSize := none,
               getCL := 6, getBody := 6, getOk := true }] i).isSome))) :=
  ⟨by decide,
    (playlist_positions false
      [{ pipelineOk := false, localFile := none, headSize := none,
         getCL := 0, getBody := 0, getOk := true },
       { pipelineOk := true, localFile := none, headSize := none,
         getCL := 6, getBody := 6, getOk := true }] [2, 1] (by decide)).1⟩

/-- C8: second run over an already-fully-downloaded playlist. If every
episode's pipeline succeeds and every episode has a local file at least as
large as its (positive) probed remote size, then with `force=false` the
run reports `downloaded = 0` and `skipped = N`, and every episode's
transfer leaves its local file untouched without issuing a content GET. -/
theorem playlist_second_run_idempotent (envs : List EpisodeEnv) (perm : List Nat)
    (hperm : perm.Perm (List.range' 1 envs.length))
    (hok : ∀ e ∈ envs, e.pipelineOk = true)
    (hfull : ∀ e ∈ envs, ∃ s r, e.localFile = some s ∧ e.headSize = some r ∧
      0 < r ∧ r ≤ s) :
    (downloadPlaylist false envs perm).downloaded = 0 ∧
    (downloadPlaylist false envs perm).skipped = envs.length ∧
    ∀ e ∈ envs,
      (downloadFile false e.localFile e.headSize e.getCL e.getBody e.getOk).finalFile =
        e.localFile ∧
      (downloadFile false e.localFile e.headSize e.getCL e.getBody e.getOk).getIssued =
        false := by
  have hunchanged : ∀ e ∈ envs,
      (downloadFile false e.localFile e.headSize e.getCL e.getBody e.getOk).finalFile =
        e.localFile ∧
      (downloadFile false e.localFile e.headSize e.getCL e.getBody e.getOk).getIssued =
        false := by
    intro e he
    obtain ⟨s, r, hl, hh, hr, hle⟩ := hfull e he
    rw [hl, hh, downloadFile_skip_complete s r e.getCL e.getBody e.getOk hr hle]
    exact ⟨rfl, rfl⟩
  have hskip : ∀ i ∈ perm, ∃ s, episodeOutcome false envs i =
      some { status := Status.skipped, size := s } := by
    intro i hi
    have hmem : i ∈ List.range' 1 envs.length := hperm.mem_iff.mp hi
    have hrange := List.mem_range'_1.mp hmem
    have hidx : i - 1 < envs.length := by omega
    have hget : envs.get? (i - 1) = some (envs.get ⟨i - 1, hidx⟩) := List.get?_eq_get hidx
    set e := envs.get ⟨i - 1, hidx⟩ with hedef
    have he : e ∈ envs := List.get_mem envs (i - 1) hidx
    obtain ⟨s, r, hl, hh, hr, hle⟩ := hfull e he
    refine ⟨s, ?_⟩
    simp only [episodeOutcome, hget, runEpisode, hok e he, if_true, hl, hh,
      downloadFile_skip_complete s r e.getCL e.getBody e.getOk hr hle, skipResult]
  obtain ⟨hlen, hcount⟩ := playlistVideos_all_skipped false envs perm hskip
  have hN : perm.length = envs.length := by
    rw [hperm.length_eq]
    simp
  refine ⟨?_, ?_, hunchanged⟩
  · show ((playlistVideos false envs perm).length : Int) -
      (((playlistVideos false envs perm).filter
          (fun v => decide (v.2.status = Status.skipped))).length : Int) = 0
    rw [hlen, hcount]
    omega
  · show ((playlistVideos false envs perm).filter
        (fun v => decide (v.2.status = Status.skipped))).length = envs.length
    rw [hcount, hN]

/-- Witness for C8: two fully-downloaded episodes, completion order `[2, 1]`. -/
theorem playlist_second_run_idempotent_witness :
    (downloadPlaylist false
      [{ pipelineOk := true, localFile := some 5, headSize := some 3,
         getCL := 9, getBody := 9, getOk := true },
       { pipelineOk := true, localFile := some 4, headSize := some 4,
         getCL := 9, getBody := 9, getOk := true }] [2, 1]).downloaded = 0 ∧
    (downloadPlaylist false
      [{ pipelineOk := true, localFile := some 5, headSize := some 3,
         getCL := 9, getBody := 9, getOk := true },
       { pipelineOk := true, localFile := some 4, headSize := some 4,
         getCL := 9, getBody := 9, getOk := true }] [2, 1]).skipped = 2 :=
  have h := playlist_second_run_idempotent
    [{ pipelineOk := true, localFile := some 5, headSize := some 3,
       getCL := 9, getBody := 9, getOk := true },
     { pipelineOk := true, localFile := some 4, headSize := some 4,
       getCL := 9, getBody := 9, getOk := true }] [2, 1]
    (by decide)
    (by intro e he; fin_cases he <;> rfl)
    (by
      intro e he
      fin_cases he
      · exact ⟨5, 3, rfl, rfl, by decide, by decide⟩
      · exact ⟨4, 4, rfl, rfl, by decide, by decide⟩)
  ⟨h.1, h.2.1⟩

/-- C10: count consistency of `download_playlist`. For any completion
order: `downloaded + skipped` equals the number of collected videos, the
videos are no more than the expanded episodes, `downloaded` is never
negative, and an episode whose pipeline produced no outcome appears
nowhere in the `videos` list (so it contributes to neither count). -/
theorem playlist_counts_consistent (force : Bool) (envs : List EpisodeEnv)
    (perm : List Nat) (hperm : perm.Perm (List.range' 1 envs.length)) :
    (downloadPlaylist force envs perm).downloaded +
      ((downloadPlaylist force envs perm).skipped : Int) =
      ((downloadPlaylist force envs perm).videos.length : Int) ∧
    (downloadPlaylist force envs perm).videos.length ≤
      (downloadPlaylist force envs perm).total_episodes ∧
    0 ≤ (downloadPlaylist force envs perm).downloaded ∧
    ∀ i, episodeOutcome force envs i = none →
      ∀ p ∈ (downloadPlaylist force envs perm).videos, p.1 ≠ i := by
  have hfilter : ((playlistVideos force envs perm).filter
      (fun v => decide (v.2.status = Status.skipped))).length ≤
      (playlistVideos force envs perm).length := List.length_filter_le _ _
  refine ⟨?_, ?_, ?_, ?_⟩
  · show ((playlistVideos force envs perm).length : Int) -
        (((playlistVideos force envs perm).filter
            (fun v => decide (v.2.status = Status.skipped))).length : Int) +
        ((((playlistVideos force envs perm).filter
            (fun v => decide (v.2.status = Status.skipped))).length : Nat) : Int) =
        ((playlistVideos force envs perm).length : Int)
    omega
  · show (playlistVideos force envs perm).length ≤ envs.length
    calc (playlistVideos force envs perm).length
        ≤ perm.length := List.length_filterMap_le _ _
      _ = (List.range' 1 envs.length).length := hperm.length_eq
      _ = envs.length := by simp
  · show (0 : Int) ≤ ((playlistVideos force envs perm).length : Int) -
        (((playlistVideos force envs perm).filter
            (fun v => decide (v.2.status = Status.skipped))).length : Int)
    omega
  · intro i hi p hp
    obtain ⟨j, hj, hjp⟩ := List.mem_filterMap.mp hp
    intro hpi
    rcases ho : episodeOutcome force envs j with _ | o
    · rw [ho] at hjp
      exact Option.noConfusion hjp
    · rw [ho] at hjp
      have : p = (j, o) := by
        simpa using hjp.symm
      rw [this] at hpi
      simp only at hpi
      rw [hpi] at ho
      rw [ho] at hi
      exact Option.noConfusion hi

/-- Witness for C10: one successfully downloaded episode, order `[1]`. -/
theorem playlist_counts_consistent_witness :
    (downloadPlaylist false
      [{ pipelineOk := true, localFile := none, headSize := none,
         getCL := 6, getBody := 6, getOk := true }] [1]).downloaded +
      ((downloadPlaylist false
        [{ pipelineOk := true, localFile := none, headSize := none,
           getCL := 6, getBody := 6, getOk := true }] [1]).skipped : Int) =
      ((downloadPlaylist false
        [{ pipelineOk := true, localFile := none, headSize := none,
           getCL := 6, getBody := 6, getOk := true }] [1]).videos.length : Int) ∧
    0 ≤ (downloadPlaylist false
      [{ pipelineOk := true, localFile := none, headSize := none,
         getCL := 6, getBody := 6, getOk := true }] [1]).downloaded :=
  have h := playlist_counts_consistent false
    [{ pipelineOk := true, localFile := none, headSize := none,
       getCL := 6, getBody := 6, getOk := true }] [1] (by decide)
  ⟨h.1, h.2.2.1⟩

/-! ### The episode-link extraction of `download_playlist` (lines 525-565)

Both tiers (episode containers and the fallback scan) process candidate
hrefs identically: keep those containing `/episodes/`, strip the query
string (`href.split('?')[0]`), join with the playlist URL, and append
unless the resulting URL is already present. The hrefs are given in
document order; `urljoin` is an abstract deterministic function `join` of
the (clean) href, the playlist base URL being fixed for one expansion. -/

/-- Python's `'needle' in s` substring test. -/
def containsSub (needle s : String) : Bool :=
  s.data.tails.any (fun t => needle.data.isPrefixOf t)

/-- Python's `href.split('?')[0]`: the prefix before the first `?`. -/
def cleanHref (href : String) : String :=
  String.mk (href.data.takeWhile (fun c => decide (c ≠ '?')))

/-- `if full_url not in episode_links: episode_links.append(full_url)`
(lines 543-544 and 564-565). -/
def addEpisode (acc : List String) (full : String) : List String :=
  if full ∈ acc then acc else acc ++ [full]

/-- The episode-link accumulation loop of `download_playlist`. -/
def expandEpisodes (join : String → String) (hrefs : List String) : List String :=
  hrefs.foldl (fun acc href =>
    if containsSub "/episodes/" href then addEpisode acc (join (cleanHref href))
    else acc) []

/-- Modelled from the spec: "ordered, de-duplicated sequence … insertion
order = document order, duplicates by exact URL string dropped" — keep the
first occurrence of each string, in order. -/
def dedupFirst : List String → List String
  | [] => []
  | x :: xs => x :: dedupFirst (xs.filter (fun y => decide (y ≠ x)))
termination_by l => l.length
decreasing_by
  simp only [List.length_cons]
  exact Nat.lt_succ_of_le (List.length_filter_le _ _)

/-- Everything in `dedupFirst l` comes from `l`. -/
theorem mem_dedupFirst : ∀ (l : List String) (y : String), y ∈ dedupFirst l → y ∈ l
  | [], y, hy => by simp [dedupFirst] at hy
  | x :: xs, y, hy => by
    rw [dedupFirst] at hy
    rcases List.mem_cons.mp hy with rfl | hmem
    · exact List.mem_cons_self _ _
    · exact List.mem_cons_of_mem _ (List.mem_of_mem_filter (mem_dedupFirst _ y hmem))
termination_by l => l.length
decreasing_by
  simp only [List.length_cons]
  exact Nat.lt_succ_of_le (List.length_filter_le _ _)

/-- `dedupFirst` output has no duplicates. -/
theorem dedupFirst_nodup : ∀ l : List String, (dedupFirst l).Nodup
  | [] => by
    rw [dedupFirst]
    exact List.nodup_nil
  | x :: xs => by
    rw [dedupFirst]
    refine List.nodup_cons.mpr ⟨?_, dedupFirst_nodup _⟩
    intro hx
    have := List.mem_filter.mp (mem_dedupFirst _ _ hx)
    simp at this
termination_by l => l.length
decreasing_by
  simp only [List.length_cons]
  exact Nat.lt_succ_of_le (List.length_filter_le _ _)

/-- The accumulation loop, restricted to the kept hrefs and started at an
arbitrary accumulator. -/
theorem expand_foldl_eq (join : String → String) :
    ∀ (hrefs acc : List String),
      hrefs.foldl (fun a href =>
        if containsSub "/episodes/" href then addEpisode a (join (cleanHref href))
        else a) acc =
      ((hrefs.filter (fun x => containsSub "/episodes/" x)).map
        (fun x => join (cleanHref x))).foldl addEpisode acc
  | [], _ => rfl
  | h :: t, acc => by
    by_cases hp : containsSub "/episodes/" h = true
    · simp only [List.foldl_cons, hp, if_true, List.filter_cons, List.map_cons]
      exact expand_foldl_eq join t (addEpisode acc (join (cleanHref h)))
    · have hp' : containsSub "/episodes/" h = false := by simpa using hp
      simp only [List.foldl_cons, hp', Bool.false_eq_true, if_false, List.filter_cons]
      exact expand_foldl_eq join t acc

/-- The membership-guarded append loop computes first-occurrence
deduplication of the elements not already in the accumulator. -/
theorem foldl_addEpisode_eq :
    ∀ (ms acc : List String),
      ms.foldl addEpisode acc = acc ++ dedupFirst (ms.filter (fun x => decide (x ∉ acc)))
  | [], acc => by
    simp only [List.foldl_nil, List.filter_nil]
    rw [dedupFirst]
    simp
  | x :: ms, acc => by
    by_cases hx : x ∈ acc
    · have h1 : decide (x ∉ acc) = false := by simpa using hx
      have haddx : addEpisode acc x = acc := by simp [addEpisode, hx]
      have hfilcons : (x :: ms).filter (fun y => decide (y ∉ acc)) =
          ms.filter (fun y => decide (y ∉ acc)) := by
        simp only [List.filter_cons, h1, Bool.false_eq_true, if_false]
      rw [List.foldl_cons, haddx, hfilcons]
      exact foldl_addEpisode_eq ms acc
    · have h1 : decide (x ∉ acc) = true := by simpa using hx
      have haddx : addEpisode acc x = acc ++ [x] := by simp [addEpisode, hx]
      have hfilcons : (x :: ms).filter (fun y => decide (y ∉ acc)) =
          x :: ms.filter (fun y => decide (y ∉ acc)) := by
        simp only [List.filter_cons, h1, if_true]
      rw [List.foldl_cons, haddx, hfilcons, foldl_addEpisode_eq ms (acc ++ [x]),
        dedupFirst]
      have hfil : ms.filter (fun y => decide (y ∉ acc ++ [x])) =
          (ms.filter (fun y => decide (y ∉ acc))).filter (fun y => decide (y ≠ x)) := by
        rw [List.filter_filter]
        refine (List.filter_congr ?_).symm
        intro a _
        simp [not_or, Bool.and_comm]
      rw [← hfil]
      simp

/-- The prefix before the first `?` of `l₁ ++ '?' :: l₂` is `l₁` when `l₁`
itself has no `?`. -/
theorem takeWhile_no_qmark :
    ∀ (l₁ l₂ : List Char), '?' ∉ l₁ →
      (l₁ ++ '?' :: l₂).takeWhile (fun c => decide (c ≠ '?')) = l₁
  | [], _, _ => by simp
  | c :: t, l₂, hq => by
    have hc : (decide (c ≠ '?')) = true := by
      simp only [List.mem_cons, not_or] at hq
      simpa using fun h => hq.1 h.symm
    simp only [List.cons_append, List.takeWhile_cons, hc, if_true, List.cons.injEq,
      true_and]
    exact takeWhile_no_qmark t l₂ (fun hm => hq (List.mem_cons_of_mem c hm))

/-- Stripping the query from `u ++ "?" ++ q` recovers `u` when `u` has no
`?` of its own. -/
theorem cleanHref_append_query (u q : String) (hq : '?' ∉ u.data) :
    cleanHref (u ++ "?" ++ q) = u := by
  unfold cleanHref
  have hdata : (u ++ "?" ++ q).data = u.data ++ '?' :: q.data := by
    simp [String.data_append]
  rw [hdata, takeWhile_no_qmark u.data q.data hq]

/-- C7: the Playlist Expander emits the kept episode hrefs in document
order, query strings stripped, with duplicates by exact URL string
dropped (first occurrence kept): it equals first-occurrence deduplication
of the stripped-and-joined href sequence, and has no duplicates. In
particular a page carrying the same hyperlink `u` twice with differing
query strings `q₁`, `q₂` yields exactly one entry. -/
theorem expander_strips_and_dedups (join : String → String) (hrefs : List String)
    (u q₁ q₂ : String)
    (h₁ : containsSub "/episodes/" (u ++ "?" ++ q₁) = true)
    (h₂ : containsSub "/episodes/" (u ++ "?" ++ q₂) = true)
    (hq : '?' ∉ u.data) :
    expandEpisodes join hrefs =
      dedupFirst ((hrefs.filter (fun x => containsSub "/episodes/" x)).map
        (fun x => join (cleanHref x))) ∧
    (expandEpisodes join hrefs).Nodup ∧
    expandEpisodes join [u ++ "?" ++ q₁, u ++ "?" ++ q₂] = [join u] := by
  have hmain : expandEpisodes join hrefs =
      dedupFirst ((hrefs.filter (fun x => containsSub "/episodes/" x)).map
        (fun x => join (cleanHref x))) := by
    rw [expandEpisodes, expand_foldl_eq join hrefs [], foldl_addEpisode_eq]
    simp
  refine ⟨hmain, hmain ▸ dedupFirst_nodup _, ?_⟩
  have hc1 : cleanHref (u ++ "?" ++ q₁) = u := cleanHref_append_query u q₁ hq
  have hc2 : cleanHref (u ++ "?" ++ q₂) = u := cleanHref_append_query u q₂ hq
  simp only [expandEpisodes, List.foldl_cons, List.foldl_nil, h₁, h₂, if_true, hc1, hc2]
  simp [addEpisode]

/-- Witness for C7 on a concrete page: the hyperlink `/episodes/42` twice
with differing query strings, joined onto the site root. -/
theorem expander_strips_and_dedups_witness :
    expandEpisodes (fun s => "https://gorails.com" ++ s)
        ["/episodes/42" ++ "?" ++ "a", "/episodes/42" ++ "?" ++ "b"] =
      ["https://gorails.com" ++ "/episodes/42"] :=
  (expander_strips_and_dedups (fun s => "https://gorails.com" ++ s)
    ["/episodes/42" ++ "?" ++ "a", "/episodes/42" ++ "?" ++ "b"]
    "/episodes/42" "a" "b" (by decide) (by decide) (by decide)).2.2

/-! ### The filename derivation of `_download_file` (lines 336-345)

`safe_title = re.sub(r'[<>:"/\\|?*]', '_', title)`,
`filename = f"{position:02d}_{safe_title}.mp4"` when a position is given,
else `f"{safe_title}.mp4"`. `f"{n:02d}"` is the decimal representation of
`n` left-padded with `0` to at least two characters. -/

/-- The characters replaced by the sanitizer regex. -/
def badChars : List Char := ['<', '>', ':', '"', '/', '\\', '|', '?', '*']

/-- `re.sub(r'[<>:"/\\|?*]', '_', title)`. -/
def safeTitle (title : String) : String :=
  String.mk (title.data.map (fun c => if c ∈ badChars then '_' else c))

/-- The decimal digit character of a value `d < 10`. -/
def digitChar (d : Nat) : Char := Char.ofNat (48 + d)

/-- Decimal representation of `n`, most significant digit first. -/
def decChars (n : Nat) : List Char :=
  if n = 0 then ['0'] else (Nat.digits 10 n).reverse.map digitChar

/-- The character list of `f"{n:02d}"`: decimal digits, left-padded with a
`'0'` to at least two characters. -/
def padChars (n : Nat) : List Char :=
  if n < 10 then '0' :: decChars n else decChars n

/-- `f"{n:02d}"` as a string. -/
def pad2 (n : Nat) : String := String.mk (padChars n)

/-- The `filename` computed at lines 340-343. -/
def makeFilename (position : Option Nat) (title : String) : String :=
  match position with
  | some p => pad2 p ++ "_" ++ safeTitle title ++ ".mp4"
  | none => safeTitle title ++ ".mp4"

/-- `digitChar` is injective on digit values. -/
theorem digitChar_inj : ∀ a < 10, ∀ b < 10, digitChar a = digitChar b → a = b := by
  decide

/-- A digit character is never an underscore. -/
theorem digitChar_ne_underscore : ∀ d < 10, digitChar d ≠ '_' := by
  decide

/-- Mapping `digitChar` over digit lists is injective. -/
theorem map_digitChar_inj :
    ∀ (l₁ l₂ : List Nat), (∀ x ∈ l₁, x < 10) → (∀ x ∈ l₂, x < 10) →
      l₁.map digitChar = l₂.map digitChar → l₁ = l₂
  | [], [], _, _, _ => rfl
  | [], _ :: _, _, _, h => by simp at h
  | _ :: _, [], _, _, h => by simp at h
  | a :: l₁, b :: l₂, h1, h2, h => by
    simp only [List.map_cons, List.cons.injEq] at h
    have ha := h1 a (List.mem_cons_self a l₁)
    have hb := h2 b (List.mem_cons_self b l₂)
    rw [digitChar_inj a ha b hb h.1,
      map_digitChar_inj l₁ l₂ (fun x hx => h1 x (List.mem_cons_of_mem a hx))
        (fun x hx => h2 x (List.mem_cons_of_mem b hx)) h.2]

/-- Every digit of `Nat.digits 10 n` is below 10. -/
theorem decChars_digits_lt (n x : Nat) (hx : x ∈ Nat.digits 10 n) : x < 10 :=
  Nat.digits_lt_base (by norm_num) hx

/-- `decChars` of a nonzero number is never the single character `'0'`. -/
theorem decChars_ne_singleton_zero (b : Nat) (hb : b ≠ 0) : decChars b ≠ ['0'] := by
  unfold decChars
  rw [if_neg hb]
  intro h
  have hlen : (Nat.digits 10 b).reverse.length = 1 := by
    have := congrArg List.length h
    simpa using this
  obtain ⟨d, hd⟩ := List.length_eq_one.mp hlen
  rw [hd] at h
  simp only [List.map_cons, List.map_nil, List.cons.injEq, and_true] at h
  have hdigits : Nat.digits 10 b = [d] := by
    have := congrArg List.reverse hd
    simpa using this
  have hd10 : d < 10 := decChars_digits_lt b d (by rw [hdigits]; exact List.mem_singleton_self d)
  have hd0 : d = 0 := digitChar_inj d hd10 0 (by norm_num) (by rw [h]; decide)
  have hround : b = Nat.ofDigits 10 (Nat.digits 10 b) := (Nat.ofDigits_digits 10 b).symm
  rw [hdigits, hd0] at hround
  simp [Nat.ofDigits] at hround
  exact hb hround

/-- `decChars` is injective. -/
theorem decChars_inj (a b : Nat) (h : decChars a = decChars b) : a = b := by
  by_cases ha : a = 0 <;> by_cases hb : b = 0
  · rw [ha, hb]
  · exfalso
    apply decChars_ne_singleton_zero b hb
    rw [← h, ha]
    rfl
  · exfalso
    apply decChars_ne_singleton_zero a ha
    rw [h, hb]
    rfl
  · unfold decChars at h
    rw [if_neg ha, if_neg hb] at h
    have hrev : (Nat.digits 10 a).reverse = (Nat.digits 10 b).reverse :=
      map_digitChar_inj _ _
        (fun x hx => decChars_digits_lt a x (List.mem_reverse.mp hx))
        (fun x hx => decChars_digits_lt b x (List.mem_reverse.mp hx)) h
    have hdig : Nat.digits 10 a = Nat.digits 10 b := List.reverse_injective hrev
    have := congrArg (Nat.ofDigits 10) hdig
    rwa [Nat.ofDigits_digits, Nat.ofDigits_digits] at this

/-- `decChars` of a number with at least two digits starts with a nonzero
digit character. -/
theorem decChars_ge_ten_head (b : Nat) (hb : 10 ≤ b) :
    ∃ d t, decChars b = digitChar d :: t ∧ d < 10 ∧ d ≠ 0 := by
  have hb0 : b ≠ 0 := by omega
  have hne : Nat.digits 10 b ≠ [] := Nat.digits_ne_nil_iff_ne_zero.mpr hb0
  rcases List.eq_nil_or_concat (Nat.digits 10 b) with hnil | ⟨L, d, hLd⟩
  · exact absurd hnil hne
  · rw [List.concat_eq_append] at hLd
    refine ⟨d, L.reverse.map digitChar, ?_, ?_, ?_⟩
    · unfold decChars
      rw [if_neg hb0, hLd]
      simp
    · exact decChars_digits_lt b d
        (by rw [hLd]; exact List.mem_append_right L (List.mem_singleton_self d))
    · have h1 : (Nat.digits 10 b).getLast? = some d := by
        rw [hLd]
        exact List.getLast?_concat L
      have h2 : (Nat.digits 10 b).getLast? =
          some ((Nat.digits 10 b).getLast hne) := List.getLast?_eq_getLast _ hne
      have h3 : (Nat.digits 10 b).getLast hne = d := by
        rw [h2] at h1
        exact Option.some_injective _ h1
      have h4 := Nat.getLast_digit_ne_zero 10 hb0
      rwa [h3] at h4

/-- `padChars` is injective: the `02d`-padded decimal strings of two
distinct numbers differ. -/
theorem padChars_inj (a b : Nat) (h : padChars a = padChars b) : a = b := by
  unfold padChars at h
  by_cases ha : a < 10 <;> by_cases hb : b < 10
  · rw [if_pos ha, if_pos hb] at h
    simp only [List.cons.injEq, true_and] at h
    exact decChars_inj a b h
  · exfalso
    rw [if_pos ha, if_neg hb] at h
    obtain ⟨d, t, hdt, hd10, hd0⟩ := decChars_ge_ten_head b (by omega)
    rw [hdt] at h
    simp only [List.cons.injEq] at h
    exact hd0 (digitChar_inj d hd10 0 (by norm_num) (by rw [← h.1]; decide))
  · exfalso
    rw [if_neg ha, if_pos hb] at h
    obtain ⟨d, t, hdt, hd10, hd0⟩ := decChars_ge_ten_head a (by omega)
    rw [hdt] at h
    simp only [List.cons.injEq] at h
    exact hd0 (by
      have := digitChar_inj d hd10 0 (by norm_num) (by rw [h.1]; decide)
      omega)
  · rw [if_neg ha, if_neg hb] at h
    exact decChars_inj a b h

/-- No underscore occurs in `padChars n`. -/
theorem underscore_not_mem_padChars (n : Nat) : '_' ∉ padChars n := by
  have hdec : '_' ∉ decChars n := by
    unfold decChars
    by_cases hn : n = 0
    · rw [if_pos hn]
      decide
    · rw [if_neg hn]
      intro hmem
      obtain ⟨d, hd, hdc⟩ := List.mem_map.mp hmem
      exact digitChar_ne_underscore d
        (decChars_digits_lt n d (List.mem_reverse.mp hd)) hdc
  unfold padChars
  by_cases hn : n < 10
  · rw [if_pos hn]
    intro hmem
    rcases List.mem_cons.mp hmem with hh | hh
    · exact absurd hh.symm (by decide)
    · exact hdec hh
  · rw [if_neg hn]
    exact hdec

/-- Splitting two equal lists at their first underscore: if the prefixes
are underscore-free, they agree. -/
theorem append_underscore_inj :
    ∀ (p₁ p₂ r₁ r₂ : List Char), '_' ∉ p₁ → '_' ∉ p₂ →
      p₁ ++ '_' :: r₁ = p₂ ++ '_' :: r₂ → p₁ = p₂
  | [], [], _, _, _, _, _ => rfl
  | [], c :: p₂, r₁, r₂, _, h2, h => by
    exfalso
    simp only [List.nil_append, List.cons_append, List.cons.injEq] at h
    exact h2 (h.1 ▸ List.mem_cons_self c p₂)
  | c :: p₁, [], r₁, r₂, h1, _, h => by
    exfalso
    simp only [List.nil_append, List.cons_append, List.cons.injEq] at h
    exact h1 (h.1.symm ▸ List.mem_cons_self c p₁)
  | c :: p₁, d :: p₂, r₁, r₂, h1, h2, h => by
    simp only [List.cons_append, List.cons.injEq] at h
    rw [h.1, append_underscore_inj p₁ p₂ r₁ r₂
      (fun hm => h1 (List.mem_cons_of_mem c hm))
      (fun hm => h2 (List.mem_cons_of_mem d hm)) h.2]

/-- C9: destination filenames with distinct ordinal positions are
distinct, whatever the two episode titles are — the zero-padded position
prefix alone separates them, so no two playlist workers (positions
`1..N` being pairwise distinct) share a destination file. -/
theorem filenames_pairwise_distinct (i j : Nat) (t₁ t₂ : String) (hij : i ≠ j) :
    makeFilename (some i) t₁ ≠ makeFilename (some j) t₂ := by
  intro h
  apply hij
  have hdata := congrArg String.data h
  simp only [makeFilename, String.data_append, pad2] at hdata
  have hassoc :
      padChars i ++ ('_' :: ((safeTitle t₁).data ++ (".mp4" : String).data)) =
      padChars j ++ ('_' :: ((safeTitle t₂).data ++ (".mp4" : String).data)) := by
    simpa [List.append_assoc] using hdata
  exact padChars_inj i j (append_underscore_inj _ _ _ _
    (underscore_not_mem_padChars i) (underscore_not_mem_padChars j) hassoc)

/-- Witness for C9: positions 1 and 2 with colliding-looking titles. -/
theorem filenames_pairwise_distinct_witness :
    (1 : Nat) ≠ 2 ∧ makeFilename (some 1) "1_a" ≠ makeFilename (some 2) "a" :=
  ⟨by decide, filenames_pairwise_distinct 1 2 "1_a" "a" (by decide)⟩

end Gorails
